import Mathlib

/-!
Verification development for the PNG image compressor (`compression.py`).

The orchestration core is shallowly embedded: Python strings become `List Char`,
the filesystem / PIL codec become an explicit environment of oracles, the
per-job callback stream becomes an explicit event trace, and the thread pool's
arbitrary completion order becomes an explicit interleaving schedule.
-/

/-- Python strings, modelled as lists of characters. -/
abbrev PyStr := List Char

namespace PngComp

/-! ## Model of the `os.path` (posixpath) helpers used by the source -/

/-- `posixpath.split p` without the trailing-slash strip on the head:
the pair (everything up to and including the last `'/'`, everything after it).
`basename` and `dirname` are derived from it exactly as in `posixpath`. -/
def pathSplit (p : PyStr) : PyStr × PyStr :=
  ((p.reverse.dropWhile (fun c => !(c == '/'))).reverse,
   (p.reverse.takeWhile (fun c => !(c == '/'))).reverse)

/-- `os.path.basename`: the part of the path after the last `'/'`. -/
def basename (p : PyStr) : PyStr := (pathSplit p).2

/-- The raw head of `posixpath.split`, before stripping trailing slashes. -/
def rawhead (p : PyStr) : PyStr := (pathSplit p).1

/-- `os.path.dirname`: the head of the split; trailing slashes are stripped
unless the head consists only of slashes. -/
def dirname (p : PyStr) : PyStr :=
  let head := rawhead p
  if head.all (fun c => c == '/') then head
  else (head.reverse.dropWhile (fun c => c == '/')).reverse

/-- `os.path.splitext`: splits at the last dot of the basename, unless every
character of the basename before that dot is itself a dot (leading-dot rule). -/
def splitext (p : PyStr) : PyStr × PyStr :=
  let head := rawhead p
  let t := basename p
  let afterRev := t.reverse.takeWhile (fun c => !(c == '.'))
  match t.reverse.dropWhile (fun c => !(c == '.')) with
  | [] => (p, [])
  | _ :: rootRev =>
    if rootRev.any (fun c => !(c == '.')) then
      (head ++ rootRev.reverse, '.' :: afterRev.reverse)
    else (p, [])

/-- `os.path.join a b` for a single component, POSIX rules. -/
def joinPath (a b : PyStr) : PyStr :=
  if b.head? = some '/' then b
  else if a = [] ∨ a.getLast? = some '/' then a ++ b
  else a ++ '/' :: b

/-! ## Data model: result dictionaries, events, environment -/

/-- The `"_compressed"` suffix inserted before the extension. -/
def cSfx : PyStr := ("_compressed").data

/-- The message of the `FileNotFoundError` raised (and caught) by
`compress_image`: `f"Input file not found: {input_path}"`. -/
def fnfMsg (input_path : PyStr) : PyStr :=
  ("Input file not found: ").data ++ input_path

/-- The rejection message used by `batch_compress` for non-PNG inputs. -/
def notPngMsg : PyStr := ("Not a PNG file").data

/-- The three result-dictionary shapes produced by the source:
a success dict (all size fields), the `compress_image` error dict
(`input_path`, `output_path`, `error`, `success`), and the pre-dispatch
rejection dict of `batch_compress` (`input_path`, `error`, `success`). -/
inductive CompressionResult where
  | ok (input_path output_path : PyStr) (original_size new_size : Nat)
      (bytes_saved : Int) (percentage_saved : ℚ)
  | fileError (input_path : PyStr) (output_path : Option PyStr) (error : PyStr)
  | batchReject (input_path : PyStr) (error : PyStr)
  deriving DecidableEq, Repr

/-- `result["input_path"]` (present in every shape). -/
def inputPathOf : CompressionResult → PyStr
  | .ok ip _ _ _ _ _ => ip
  | .fileError ip _ _ => ip
  | .batchReject ip _ => ip

/-- `result["success"]`. -/
def successOf : CompressionResult → Bool
  | .ok _ _ _ _ _ _ => true
  | _ => false

/-- `result.get("error")`. -/
def errorOf : CompressionResult → Option PyStr
  | .fileError _ _ m => some m
  | .batchReject _ m => some m
  | _ => none

/-- `result.get("original_size", 0)`. -/
def getOriginal : CompressionResult → Nat
  | .ok _ _ o _ _ _ => o
  | _ => 0

/-- `result.get("new_size", 0)`. -/
def getNew : CompressionResult → Nat
  | .ok _ _ _ n _ _ => n
  | _ => 0

/-- `result.get("percentage_saved", 0)`. -/
def getPct : CompressionResult → ℚ
  | .ok _ _ _ _ _ q => q
  | _ => 0

/-- The callback dictionaries emitted by `compress_image`
(`status` in started / processing / completed / error). -/
inductive Event where
  | started (input_path : PyStr)
  | processing (input_path : PyStr) (progress : Nat)
  | completed (r : CompressionResult)
  | error (r : CompressionResult)
  deriving DecidableEq, Repr

/-- The dictionaries the outer callback of `batch_compress` receives:
the batch frame events, and per-job events annotated with the
`overall_progress` field added by `process_callback`. -/
inductive BatchEvent where
  | batch_started (total : Nat)
  | jobEvent (e : Event) (overall_progress : ℚ)
  | batch_completed (results : List CompressionResult)
  deriving DecidableEq, Repr

/-- Environment of external oracles: `os.path.exists`, `os.path.getsize`,
`Image.open` (success and error message), `img.format == "PNG"`,
`img.convert` (success and error message), `os.makedirs`, `img.save`,
and the size of the written output file. -/
structure Env where
  exists_file : PyStr → Bool
  getsize : PyStr → Nat
  openOk : PyStr → Bool
  openErr : PyStr → PyStr
  fmtIsPng : PyStr → Bool
  convertOk : PyStr → Bool
  convertErr : PyStr → PyStr
  mkdirOk : PyStr → Bool
  mkdirErr : PyStr → PyStr
  saveOk : PyStr → Bool
  saveErr : PyStr → PyStr
  savedSize : PyStr → Nat

/-! ## `ImageCompressor.compress_image` -/

/-- The default output path derivation of `compress_image` (lines 49–53):
`os.path.join(os.path.dirname(p), f"{name}_compressed{ext}")` where
`name, ext = os.path.splitext(os.path.basename(p))`. -/
def default_output_path (input_path : PyStr) : PyStr :=
  let output_dir := dirname input_path
  let filename := basename input_path
  let ne := splitext filename
  joinPath output_dir (ne.1 ++ cSfx ++ ne.2)

/-- The output-path resolution of `compress_image` (lines 49–53): the given
path when one is supplied, the default sibling path otherwise. -/
def resolved_output (input_path : PyStr) (output_path0 : Option PyStr) : PyStr :=
  match output_path0 with
  | none => default_output_path input_path
  | some p => p

/-- `ImageCompressor.compress_image` (lines 32–114). Returns the result
dictionary, the trace of callback invocations, and the list of file paths
written. The `try`/`except` of the source appears as the branching: each
fallible step either continues or falls into the handler, which builds the
error dict from the locals at raise time (in particular `output_path` is
still the parameter when the existence check raises). -/
def compress_image (env : Env) (input_path : PyStr) (output_path0 : Option PyStr) :
    CompressionResult × List Event × List PyStr :=
  if env.exists_file input_path = false then
    let r := CompressionResult.fileError input_path output_path0 (fnfMsg input_path)
    (r, [Event.error r], [])
  else
    let output_path := resolved_output input_path output_path0
    let original_size := env.getsize input_path
    if env.openOk input_path = false then
      let r := CompressionResult.fileError input_path (some output_path) (env.openErr input_path)
      (r, [Event.started input_path, Event.error r], [])
    else if env.fmtIsPng input_path = false ∧ env.convertOk input_path = false then
      let r := CompressionResult.fileError input_path (some output_path) (env.convertErr input_path)
      (r, [Event.started input_path, Event.error r], [])
    else if env.mkdirOk (dirname output_path) = false then
      let r := CompressionResult.fileError input_path (some output_path) (env.mkdirErr (dirname output_path))
      (r, [Event.started input_path, Event.error r], [])
    else if env.saveOk output_path = false then
      let r := CompressionResult.fileError input_path (some output_path) (env.saveErr output_path)
      (r, [Event.started input_path, Event.error r], [])
    else
      let new_size := env.savedSize output_path
      let size_reduction : Int := (original_size : Int) - (new_size : Int)
      let percentage_saved : ℚ :=
        if 0 < original_size then ((size_reduction : ℚ) / (original_size : ℚ)) * 100 else 0
      let result := CompressionResult.ok input_path output_path original_size new_size
        size_reduction percentage_saved
      (result,
       [Event.started input_path, Event.processing input_path 50, Event.completed result],
       [output_path])

/-! ## `ImageCompressor.batch_compress` -/

/-- `input_path.lower().endswith('.png')`. -/
def endsWithPngCI (p : PyStr) : Bool :=
  (".png").data.isSuffixOf (p.map Char.toLower)

/-- Output path for an accepted job when `output_dir` is given (lines 158–163):
`os.path.join(output_dir, f"{name}_compressed{ext}")` with
`name, ext = os.path.splitext(os.path.basename(input_path))`. -/
def batch_output_path (output_dir input_path : PyStr) : PyStr :=
  let filename := basename input_path
  let ne := splitext filename
  joinPath output_dir (ne.1 ++ cSfx ++ ne.2)

/-- The output path passed to `compress_image` by `batch_compress`. -/
def batchOut (output_dir? : Option PyStr) (p : PyStr) : Option PyStr :=
  match output_dir? with
  | some d => some (batch_output_path d p)
  | none => none

/-- The dispatch loop of `batch_compress` (lines 146–171): walks the inputs
in order, recording rejection dicts for non-PNG paths and building the list
of submitted jobs (input path, output path) for the rest. -/
def dispatch (output_dir? : Option PyStr) : List PyStr →
    List CompressionResult × List (PyStr × Option PyStr)
  | [] => ([], [])
  | p :: rest =>
    let pr := dispatch output_dir? rest
    if endsWithPngCI p then (pr.1, (p, batchOut output_dir? p) :: pr.2)
    else (CompressionResult.batchReject p notPngMsg :: pr.1, pr.2)

/-- The result list returned by `batch_compress` (lines 129–181): rejection
dicts are appended to `results` during the dispatch loop; the dispatched
jobs' results are appended afterwards, by `future.result()` in submission
order. -/
def batch_compress (env : Env) (output_dir? : Option PyStr) (inputs : List PyStr) :
    List CompressionResult :=
  (dispatch output_dir? inputs).1 ++
    ((dispatch output_dir? inputs).2.map (fun j => (compress_image env j.1 j.2).1))

/-- Per-input event sources: a rejected input contributes its single error
dict (emitted by the main thread); an accepted input contributes the callback
trace of its `compress_image` job. -/
def jobSources (env : Env) (output_dir? : Option PyStr) : List PyStr → List (List Event)
  | [] => []
  | p :: rest =>
    (if endsWithPngCI p then (compress_image env p (batchOut output_dir? p)).2.1
     else [Event.error (CompressionResult.batchReject p notPngMsg)]) ::
      jobSources env output_dir? rest

/-- Take the next pending event of source `i`, if any. -/
def takeFrom (srcs : List (List Event)) (i : Nat) : Option Event × List (List Event) :=
  match srcs.get? i with
  | some (e :: rest) => (some e, srcs.set i rest)
  | _ => (none, srcs)

/-- Interleave the per-job event sources according to a schedule of source
indices; once the schedule is exhausted the leftover events are flushed in
source order (every future is resolved before the batch returns, so every
event is eventually delivered). -/
def interleave (srcs : List (List Event)) : List Nat → List Event
  | [] => srcs.flatten
  | i :: sched =>
    match takeFrom srcs i with
    | (some e, srcs') => e :: interleave srcs' sched
    | (none, _) => interleave srcs sched

/-- `process_callback` (lines 136–141), applied along the delivered event
order: the `k`-th delivered event (0-based) sees the shared counter at
`k + 1` and is forwarded with `overall_progress = (k+1) / total_files * 100`. -/
def forwardFrom (total : Nat) : Nat → List Event → List BatchEvent
  | _, [] => []
  | k, e :: rest =>
    BatchEvent.jobEvent e (((k : ℚ) + 1) / (total : ℚ) * 100) ::
      forwardFrom total (k + 1) rest

/-- The full trace seen by the outer callback of `batch_compress`, for a given
interleaving schedule: `batch_started`, then the forwarded per-job events,
then `batch_completed` with the final result list. -/
def batch_trace (env : Env) (output_dir? : Option PyStr) (inputs : List PyStr)
    (sched : List Nat) : List BatchEvent :=
  BatchEvent.batch_started inputs.length ::
    (forwardFrom inputs.length 0 (interleave (jobSources env output_dir? inputs) sched) ++
      [BatchEvent.batch_completed (batch_compress env output_dir? inputs)])

/-! ## Summary arithmetic (`cli_main` lines 666–678, identical in
`MainWindow.compression_completed` lines 569–581) -/

/-- `successful = [r for r in results if r.get("success")]`. -/
def successful (results : List CompressionResult) : List CompressionResult :=
  results.filter successOf

/-- `sum(r.get(key, 0) for r in l)` for a numeric field accessor. -/
def sumBy (f : CompressionResult → Nat) (l : List CompressionResult) : Nat :=
  l.foldl (fun acc r => acc + f r) 0

/-- `total_original = sum(r.get("original_size", 0) for r in successful)`. -/
def cli_total_original (results : List CompressionResult) : Nat :=
  sumBy getOriginal (successful results)

/-- `total_new = sum(r.get("new_size", 0) for r in successful)`. -/
def cli_total_new (results : List CompressionResult) : Nat :=
  sumBy getNew (successful results)

/-- `total_saved = total_original - total_new`. -/
def cli_total_saved (results : List CompressionResult) : Int :=
  (cli_total_original results : Int) - (cli_total_new results : Int)

/-- `avg_reduction = sum(percentage_saved)/len(successful) if successful else 0`. -/
def cli_avg (results : List CompressionResult) : ℚ :=
  if (successful results).length = 0 then 0
  else ((successful results).foldl (fun acc r => acc + getPct r) 0) /
    ((successful results).length : ℚ)


/-- The terminal event of a result: `completed` for a success dict, `error`
otherwise. -/
def terminalFor (r : CompressionResult) : Event :=
  if successOf r then Event.completed r else Event.error r

/-! ## Concrete environments used to evaluate the model -/

/-- An environment in which every filesystem and codec operation succeeds:
every path exists, inputs are 100-byte PNG files, outputs come out at
60 bytes. -/
def envAll : Env :=
  ⟨fun _ => true, fun _ => 100, fun _ => true, fun _ => [], fun _ => true,
   fun _ => true, fun _ => [], fun _ => true, fun _ => [], fun _ => true,
   fun _ => [], fun _ => 60⟩

/-- An environment in which no path exists. -/
def envMissing : Env :=
  ⟨fun _ => false, fun _ => 0, fun _ => true, fun _ => [], fun _ => true,
   fun _ => true, fun _ => [], fun _ => true, fun _ => [], fun _ => true,
   fun _ => [], fun _ => 0⟩

/-- The concrete input path `"a.png"`. -/
def aPng : PyStr := ("a.png").data

/-- The sibling output path the default rule derives for `"a.png"`. -/
def aCmp : PyStr := ("a_compressed.png").data

/-- The result `compress_image` produces for `"a.png"` under `envAll`. -/
def rA : CompressionResult := CompressionResult.ok aPng aCmp 100 60 40 40

end PngComp

namespace PngComp

/-- A Boolean that is not `false` is `true`. -/
theorem bool_true_of_not_false {b : Bool} (h : ¬ b = false) : b = true := by
  cases b
  · exact absurd rfl h
  · rfl

/-! ## Branch characterizations of `compress_image` -/

/-- Missing input: the `FileNotFoundError` is caught before any event is
emitted; the handler still sees the unresolved `output_path` parameter. -/
theorem compress_image_notfound {env : Env} {input : PyStr} {out? : Option PyStr}
    (h : env.exists_file input = false) :
    compress_image env input out? =
      (CompressionResult.fileError input out? (fnfMsg input),
       [Event.error (CompressionResult.fileError input out? (fnfMsg input))], []) := by
  simp [compress_image, h]

/-- `Image.open` fails after the `started` event. -/
theorem compress_image_openfail {env : Env} {input : PyStr} {out? : Option PyStr}
    (h : env.exists_file input = true) (h2 : env.openOk input = false) :
    compress_image env input out? =
      (CompressionResult.fileError input (some (resolved_output input out?)) (env.openErr input),
       [Event.started input,
        Event.error (CompressionResult.fileError input (some (resolved_output input out?))
          (env.openErr input))], []) := by
  simp [compress_image, h, h2]

/-- `img.convert("RGBA")` fails (only reached when the format is not PNG). -/
theorem compress_image_convertfail {env : Env} {input : PyStr} {out? : Option PyStr}
    (h : env.exists_file input = true) (h2 : env.openOk input = true)
    (h3 : env.fmtIsPng input = false) (h4 : env.convertOk input = false) :
    compress_image env input out? =
      (CompressionResult.fileError input (some (resolved_output input out?)) (env.convertErr input),
       [Event.started input,
        Event.error (CompressionResult.fileError input (some (resolved_output input out?))
          (env.convertErr input))], []) := by
  simp [compress_image, h, h2, h3, h4]

/-- `os.makedirs` fails. -/
theorem compress_image_mkdirfail {env : Env} {input : PyStr} {out? : Option PyStr}
    (h : env.exists_file input = true) (h2 : env.openOk input = true)
    (h3 : ¬(env.fmtIsPng input = false ∧ env.convertOk input = false))
    (h4 : env.mkdirOk (dirname (resolved_output input out?)) = false) :
    compress_image env input out? =
      (CompressionResult.fileError input (some (resolved_output input out?))
        (env.mkdirErr (dirname (resolved_output input out?))),
       [Event.started input,
        Event.error (CompressionResult.fileError input (some (resolved_output input out?))
          (env.mkdirErr (dirname (resolved_output input out?))))], []) := by
  simp [compress_image, h, h2, h3, h4]

/-- `img.save` fails. -/
theorem compress_image_savefail {env : Env} {input : PyStr} {out? : Option PyStr}
    (h : env.exists_file input = true) (h2 : env.openOk input = true)
    (h3 : ¬(env.fmtIsPng input = false ∧ env.convertOk input = false))
    (h4 : env.mkdirOk (dirname (resolved_output input out?)) = true)
    (h5 : env.saveOk (resolved_output input out?) = false) :
    compress_image env input out? =
      (CompressionResult.fileError input (some (resolved_output input out?))
        (env.saveErr (resolved_output input out?)),
       [Event.started input,
        Event.error (CompressionResult.fileError input (some (resolved_output input out?))
          (env.saveErr (resolved_output input out?)))], []) := by
  simp [compress_image, h, h2, h3, h4, h5]

/-- Every step succeeds: the success dict is built, `started`, `processing`
and `completed` are emitted, and exactly the resolved output path is
written. -/
theorem compress_image_success {env : Env} {input : PyStr} {out? : Option PyStr}
    (h : env.exists_file input = true) (h2 : env.openOk input = true)
    (h3 : ¬(env.fmtIsPng input = false ∧ env.convertOk input = false))
    (h4 : env.mkdirOk (dirname (resolved_output input out?)) = true)
    (h5 : env.saveOk (resolved_output input out?) = true) :
    compress_image env input out? =
      (CompressionResult.ok input (resolved_output input out?) (env.getsize input)
        (env.savedSize (resolved_output input out?))
        ((env.getsize input : Int) - (env.savedSize (resolved_output input out?) : Int))
        (if 0 < env.getsize input then
          (((env.getsize input : Int) - (env.savedSize (resolved_output input out?) : Int) : Int) : ℚ) /
            (env.getsize input : ℚ) * 100
         else 0),
       [Event.started input, Event.processing input 50,
        Event.completed (CompressionResult.ok input (resolved_output input out?)
          (env.getsize input) (env.savedSize (resolved_output input out?))
          ((env.getsize input : Int) - (env.savedSize (resolved_output input out?) : Int))
          (if 0 < env.getsize input then
            (((env.getsize input : Int) - (env.savedSize (resolved_output input out?) : Int) : Int) : ℚ) /
              (env.getsize input : ℚ) * 100
           else 0))],
       [resolved_output input out?]) := by
  simp [compress_image, h, h2, h3, h4, h5]

/-- The result dict always carries the job's own input path. -/
theorem inputPathOf_compress (env : Env) (p : PyStr) (o : Option PyStr) :
    inputPathOf (compress_image env p o).1 = p := by
  simp only [compress_image]
  split
  · rfl
  · split
    · rfl
    · split
      · rfl
      · split
        · rfl
        · split
          · rfl
          · rfl

/-- Evaluation of `compress_image` under `envAll` at `"a.png"`: a 100-byte
input compressed to 60 bytes, 40 bytes (40 %) saved. -/
theorem compress_envAll_aPng :
    compress_image envAll aPng none =
      (rA, [Event.started aPng, Event.processing aPng 50, Event.completed rA], [aCmp]) := by
  have hout : default_output_path aPng = aCmp := by decide
  have hg : envAll.getsize aPng = 100 := rfl
  have hs : envAll.savedSize aCmp = 60 := rfl
  simp only [compress_image, resolved_output]
  simp only [hout, hg, hs, rA]
  norm_num [envAll]

/-! ## Algebra of the path helpers -/

theorem takeWhile_append_all {α : Type} (p : α → Bool) {l₁ : List α} (l₂ : List α)
    (h : ∀ a ∈ l₁, p a = true) :
    (l₁ ++ l₂).takeWhile p = l₁ ++ l₂.takeWhile p := by
  induction l₁ with
  | nil => simp
  | cons a t ih =>
    have ha : p a = true := h a (List.mem_cons_self a t)
    simp only [List.cons_append, List.takeWhile_cons, ha, if_true]
    rw [ih (fun x hx => h x (List.mem_cons_of_mem a hx))]

theorem dropWhile_append_all {α : Type} (p : α → Bool) {l₁ : List α} (l₂ : List α)
    (h : ∀ a ∈ l₁, p a = true) :
    (l₁ ++ l₂).dropWhile p = l₂.dropWhile p := by
  induction l₁ with
  | nil => simp
  | cons a t ih =>
    have ha : p a = true := h a (List.mem_cons_self a t)
    simp only [List.cons_append, List.dropWhile_cons, ha, if_true]
    exact ih (fun x hx => h x (List.mem_cons_of_mem a hx))

theorem slashfree_all (t : PyStr) (ht : '/' ∉ t) :
    ∀ c ∈ t.reverse, (fun c => !(c == '/')) c = true := by
  intro c hc
  rw [List.mem_reverse] at hc
  simp only [Bool.not_eq_true', beq_eq_false_iff_ne]
  intro hcc
  exact ht (hcc ▸ hc)

theorem dotfree_all (e : PyStr) (he : '.' ∉ e) :
    ∀ c ∈ e.reverse, (fun c => !(c == '.')) c = true := by
  intro c hc
  rw [List.mem_reverse] at hc
  simp only [Bool.not_eq_true', beq_eq_false_iff_ne]
  intro hcc
  exact he (hcc ▸ hc)

theorem pathSplit_append_slashfree (x t : PyStr) (ht : '/' ∉ t) :
    pathSplit (x ++ '/' :: t) = (x ++ ['/'], t) := by
  unfold pathSplit
  have hrev : (x ++ '/' :: t).reverse = t.reverse ++ '/' :: x.reverse := by
    simp
  rw [hrev, takeWhile_append_all _ _ (slashfree_all t ht),
    dropWhile_append_all _ _ (slashfree_all t ht)]
  simp

theorem pathSplit_slashfree (t : PyStr) (ht : '/' ∉ t) : pathSplit t = ([], t) := by
  unfold pathSplit
  rw [List.takeWhile_eq_self_iff.mpr (slashfree_all t ht),
    List.dropWhile_eq_nil_iff.mpr (slashfree_all t ht)]
  simp

theorem basename_append_slashfree (x t : PyStr) (ht : '/' ∉ t) :
    basename (x ++ '/' :: t) = t := by
  rw [basename, pathSplit_append_slashfree x t ht]

theorem basename_slashfree_eq (t : PyStr) (ht : '/' ∉ t) : basename t = t := by
  rw [basename, pathSplit_slashfree t ht]

theorem dirname_append (d t : PyStr) (ht : '/' ∉ t) (hd : d ≠ [])
    (hdl : d.getLast? ≠ some '/') :
    dirname (d ++ '/' :: t) = d := by
  rw [dirname]
  simp only [rawhead, pathSplit_append_slashfree d t ht]
  have hc : d.getLast hd ≠ '/' := by
    intro hcc
    exact hdl ((List.getLast?_eq_getLast d hd).trans (congrArg some hcc))
  have hnall : ¬ (d ++ ['/']).all (fun c => c == '/') = true := by
    rw [List.all_eq_true]
    intro hall
    have hx := hall (d.getLast hd) (List.mem_append_left _ (List.getLast_mem hd))
    rw [beq_iff_eq] at hx
    exact hc hx
  rw [if_neg hnall]
  have h1 : d.reverse ≠ [] := by simpa using hd
  obtain ⟨a, rest, hrv⟩ : ∃ a rest, d.reverse = a :: rest := by
    cases hx : d.reverse with
    | nil => exact absurd hx h1
    | cons a rest => exact ⟨a, rest, rfl⟩
  have ha : ¬ ((a == '/') = true) := by
    rw [beq_iff_eq]
    intro hcc
    have h2 : d.reverse.head? = some a := by rw [hrv]; rfl
    rw [List.head?_reverse] at h2
    rw [hcc] at h2
    exact hdl h2
  have ha' : ¬ ((fun c => c == '/') a = true) := ha
  have hrev : (d ++ ['/']).reverse = '/' :: d.reverse := by simp
  rw [hrev, List.dropWhile_cons_of_pos (by simp), hrv,
    @List.dropWhile_cons_of_neg Char (fun c => c == '/') a rest ha', ← hrv,
    List.reverse_reverse]

theorem splitext_split (n e : PyStr) (hn : '/' ∉ n) (he : '/' ∉ e)
    (hne : '.' ∉ e) (hna : n.any (fun c => !(c == '.')) = true) :
    splitext (n ++ '.' :: e) = (n, '.' :: e) := by
  have hsf : '/' ∉ (n ++ '.' :: e) := by
    intro hx
    rcases List.mem_append.mp hx with hx | hx
    · exact hn hx
    · rcases List.mem_cons.mp hx with hx | hx
      · exact absurd hx.symm (by decide)
      · exact he hx
  have hps : pathSplit (n ++ '.' :: e) = ([], n ++ '.' :: e) := pathSplit_slashfree _ hsf
  have hrev : (n ++ '.' :: e).reverse = e.reverse ++ '.' :: n.reverse := by simp
  have htake : (n ++ '.' :: e).reverse.takeWhile (fun c => !(c == '.')) = e.reverse := by
    rw [hrev, takeWhile_append_all _ _ (dotfree_all e hne),
      List.takeWhile_cons_of_neg (by simp), List.append_nil]
  have hdrop : (n ++ '.' :: e).reverse.dropWhile (fun c => !(c == '.')) = '.' :: n.reverse := by
    rw [hrev, dropWhile_append_all _ _ (dotfree_all e hne),
      List.dropWhile_cons_of_neg (by simp)]
  have hany : n.reverse.any (fun c => !(c == '.')) = true := by
    rw [List.any_reverse]
    exact hna
  simp only [splitext, rawhead, basename, hps, hdrop, htake, hany, if_true]
  simp

theorem rawhead_append_basename (p : PyStr) : rawhead p ++ basename p = p := by
  rw [rawhead, basename, pathSplit]
  rw [← List.reverse_append, List.takeWhile_append_dropWhile, List.reverse_reverse]

theorem dropWhile_head_false {α : Type} (p : α → Bool) (l : List α) (a : α) (t : List α)
    (h : l.dropWhile p = a :: t) : p a = false := by
  induction l with
  | nil => exact absurd h (by simp)
  | cons b rest ih =>
    rw [List.dropWhile_cons] at h
    by_cases hb : p b = true
    · rw [if_pos hb] at h
      exact ih h
    · rw [if_neg hb] at h
      injection h with h1 h2
      subst h1
      exact Bool.not_eq_true _ |>.mp hb

theorem splitext_recomp (p : PyStr) : (splitext p).1 ++ (splitext p).2 = p := by
  simp only [splitext]
  cases hrest : (basename p).reverse.dropWhile (fun c => !(c == '.')) with
  | nil =>
    simp only [hrest, List.append_nil]
  | cons d rootRev =>
    simp only [hrest]
    have hd : d = '.' := by
      have hx := dropWhile_head_false _ _ _ _ hrest
      simpa using hx
    have hsplit : (basename p).reverse.takeWhile (fun c => !(c == '.')) ++
        (d :: rootRev) = (basename p).reverse := by
      rw [← hrest, List.takeWhile_append_dropWhile]
    have hb : basename p = rootRev.reverse ++ '.' ::
        ((basename p).reverse.takeWhile (fun c => !(c == '.'))).reverse := by
      conv_lhs => rw [← List.reverse_reverse (basename p), ← hsplit]
      rw [List.reverse_append, List.reverse_cons, hd]
      simp
    by_cases hany : rootRev.any (fun c => !(c == '.')) = true
    · rw [if_pos hany]
      simp only [List.append_assoc]
      rw [← hb]
      exact rawhead_append_basename p
    · rw [if_neg hany]
      simp

theorem joinPath_of_ne (a b : PyStr) (hb : b.head? ≠ some '/')
    (ha : a ≠ []) (hal : a.getLast? ≠ some '/') :
    joinPath a b = a ++ '/' :: b := by
  rw [joinPath, if_neg hb, if_neg]
  intro h
  rcases h with h | h
  · exact ha h
  · exact hal h

theorem head?_ne_slash_of_slashfree (b : PyStr) (hb : '/' ∉ b) :
    b.head? ≠ some '/' := by
  cases b with
  | nil => simp
  | cons c rest =>
    simp only [List.head?, ne_eq, Option.some.injEq]
    intro h
    exact hb (h ▸ List.mem_cons_self c rest)

theorem basename_joinPath (a b : PyStr) (hb : '/' ∉ b) :
    basename (joinPath a b) = b := by
  have hbh := head?_ne_slash_of_slashfree b hb
  rw [joinPath, if_neg hbh]
  by_cases h2 : a = [] ∨ a.getLast? = some '/'
  · rw [if_pos h2]
    rcases h2 with h2 | h2
    · subst h2
      simpa using basename_slashfree_eq b hb
    · have hsp := List.dropLast_append_getLast? '/' h2
      rw [← hsp, List.append_assoc]
      exact basename_append_slashfree a.dropLast b hb
  · rw [if_neg h2]
    exact basename_append_slashfree a b hb

/-! ## Shape of the dispatch loop -/

/-- The rejection dicts recorded during the dispatch loop are exactly the
non-PNG inputs, in input order. -/
theorem dispatch_rejects (out? : Option PyStr) (inputs : List PyStr) :
    (dispatch out? inputs).1 =
      (inputs.filter (fun q => !endsWithPngCI q)).map
        (fun q => CompressionResult.batchReject q notPngMsg) := by
  induction inputs with
  | nil => rfl
  | cons p rest ih =>
    by_cases h : endsWithPngCI p = true
    · simp [dispatch, h, List.filter, ih]
    · simp only [Bool.not_eq_true] at h
      simp [dispatch, h, List.filter, ih]

/-- The submitted jobs are exactly the PNG inputs, in input order, paired
with their batch output paths. -/
theorem dispatch_jobs (out? : Option PyStr) (inputs : List PyStr) :
    (dispatch out? inputs).2 =
      (inputs.filter endsWithPngCI).map (fun q => (q, batchOut out? q)) := by
  induction inputs with
  | nil => rfl
  | cons p rest ih =>
    by_cases h : endsWithPngCI p = true
    · simp [dispatch, h, List.filter, ih]
    · simp only [Bool.not_eq_true] at h
      simp [dispatch, h, List.filter, ih]

/-- Projecting the input path back out of a list of rejection dicts. -/
theorem map_inputPathOf_rejects (l : List PyStr) :
    (l.map (fun q => CompressionResult.batchReject q notPngMsg)).map inputPathOf = l := by
  induction l with
  | nil => rfl
  | cons a t ih => simpa [inputPathOf] using ih

/-- Projecting the input path back out of the dispatched jobs' results. -/
theorem map_inputPathOf_jobresults (env : Env) (out? : Option PyStr) (l : List PyStr) :
    ((l.map (fun q => (q, batchOut out? q))).map
        (fun j => (compress_image env j.1 j.2).1)).map inputPathOf = l := by
  induction l with
  | nil => rfl
  | cons a t ih => simpa [inputPathOf_compress] using ih

/-! ## C1: result order of `batch_compress` -/

/-- C1, counterexample. The claim says the returned sequence preserves
submission order, with a rejected path at its original input position. On
the batch `["a.png", "b.jpg"]` (everything on disk fine), the code appends
the `b.jpg` rejection during the dispatch loop and the `a.png` result only
after the futures resolve, so the returned order is `["b.jpg", "a.png"]`,
not the input order. -/
theorem C1_counterexample :
    (batch_compress envAll none [("a.png").data, ("b.jpg").data]).map inputPathOf ≠
      [("a.png").data, ("b.jpg").data] := by
  decide

/-- C1, amended. `batch_compress` returns exactly one result per input, none
missing and none duplicated, but the order is: all rejected-before-dispatch
results first (in input order among themselves), followed by the dispatched
results in submission order (independent of completion order, since
`future.result()` is collected in submission order). The full sequence is in
input order only when no accepted path precedes a rejected one. -/
theorem C1_amended_order (env : Env) (out? : Option PyStr) (inputs : List PyStr) :
    (batch_compress env out? inputs).map inputPathOf =
      inputs.filter (fun q => !endsWithPngCI q) ++ inputs.filter endsWithPngCI ∧
    ((batch_compress env out? inputs).map inputPathOf).Perm inputs ∧
    (batch_compress env out? inputs).length = inputs.length := by
  have hmain : (batch_compress env out? inputs).map inputPathOf =
      inputs.filter (fun q => !endsWithPngCI q) ++ inputs.filter endsWithPngCI := by
    rw [batch_compress, List.map_append, dispatch_rejects, dispatch_jobs,
      map_inputPathOf_rejects, map_inputPathOf_jobresults]
  have hperm : ((batch_compress env out? inputs).map inputPathOf).Perm inputs := by
    rw [hmain]
    exact (List.perm_append_comm).trans (List.filter_append_perm _ _)
  refine ⟨hmain, hperm, ?_⟩
  have h := hperm.length_eq
  simpa using h

/-! ## C2: the shared progress counter -/

/-- C2, evaluation at the failing input. For a batch holding the single
existing, valid PNG `"a.png"`, `process_callback` increments the shared
counter on every forwarded event — `started`, `processing` and `completed` —
not once per job at its terminal result. The terminal `completed` event is
forwarded with `overall_progress = 3 / 1 * 100 = 300`, exceeding 100. -/
theorem C2_progress_eval :
    ∃ r : CompressionResult, successOf r = true ∧
      batch_trace envAll none [aPng] [] =
        [BatchEvent.batch_started 1,
         BatchEvent.jobEvent (Event.started aPng) 100,
         BatchEvent.jobEvent (Event.processing aPng 50) 200,
         BatchEvent.jobEvent (Event.completed r) 300,
         BatchEvent.batch_completed [r]] := by
  have h1 : endsWithPngCI aPng = true := by decide
  have h2 := compress_envAll_aPng
  refine ⟨rA, rfl, ?_⟩
  simp only [batch_trace, jobSources, batch_compress, dispatch, batchOut, h1, if_true, h2,
    List.map]
  simp only [interleave, takeFrom, List.flatten, List.append_nil, List.nil_append, forwardFrom,
    List.length]
  norm_num

/-! ## C3: error capture in `compress_image` -/

/-- C3, counterexample. The claim says a missing input yields
`errorMessage = "input not found"`; the code raises and catches
`FileNotFoundError(f"Input file not found: {input_path}")`, so the stored
message is `"Input file not found: x.png"`, a different string. -/
theorem C3_counterexample :
    (compress_image envMissing ("x.png").data none).1 =
      CompressionResult.fileError ("x.png").data none (fnfMsg ("x.png").data) ∧
    fnfMsg ("x.png").data ≠ ("input not found").data := by
  decide

/-- C3, amended. `compress_image` never lets an error escape: a missing input
is returned as a failure dict whose message is
`"Input file not found: <input path>"` (not the spec's literal
`"input not found"`), and every failure result carries the message of the
step that raised — open, convert, mkdir, or save. -/
theorem C3_amended_errors (env : Env) (input : PyStr) (out? : Option PyStr) :
    (env.exists_file input = false →
      (compress_image env input out?).1 =
        CompressionResult.fileError input out? (fnfMsg input)) ∧
    (successOf (compress_image env input out?).1 = false →
      ∃ m, errorOf (compress_image env input out?).1 = some m ∧
        (m = fnfMsg input ∨ m = env.openErr input ∨ m = env.convertErr input ∨
         m = env.mkdirErr (dirname (resolved_output input out?)) ∨
         m = env.saveErr (resolved_output input out?))) := by
  by_cases h1 : env.exists_file input = false
  · rw [compress_image_notfound h1]
    exact ⟨fun _ => rfl, fun _ => ⟨fnfMsg input, rfl, Or.inl rfl⟩⟩
  · have h1' := bool_true_of_not_false h1
    refine ⟨fun hx => absurd hx h1, ?_⟩
    by_cases h2 : env.openOk input = false
    · rw [compress_image_openfail h1' h2]
      exact fun _ => ⟨env.openErr input, rfl, Or.inr (Or.inl rfl)⟩
    · have h2' := bool_true_of_not_false h2
      by_cases h3 : env.fmtIsPng input = false ∧ env.convertOk input = false
      · rw [compress_image_convertfail h1' h2' h3.1 h3.2]
        exact fun _ => ⟨env.convertErr input, rfl, Or.inr (Or.inr (Or.inl rfl))⟩
      · by_cases h4 : env.mkdirOk (dirname (resolved_output input out?)) = false
        · rw [compress_image_mkdirfail h1' h2' h3 h4]
          exact fun _ =>
            ⟨env.mkdirErr (dirname (resolved_output input out?)), rfl,
             Or.inr (Or.inr (Or.inr (Or.inl rfl)))⟩
        · have h4' := bool_true_of_not_false h4
          by_cases h5 : env.saveOk (resolved_output input out?) = false
          · rw [compress_image_savefail h1' h2' h3 h4' h5]
            exact fun _ =>
              ⟨env.saveErr (resolved_output input out?), rfl,
               Or.inr (Or.inr (Or.inr (Or.inr rfl)))⟩
          · have h5' := bool_true_of_not_false h5
            rw [compress_image_success h1' h2' h3 h4' h5']
            intro hs
            simp [successOf] at hs

/-- C3, witness: the missing-input branch, evaluated at `"x2.png"` under an
environment where no path exists. -/
theorem C3_witness :
    (compress_image envMissing (("x2.png").data) none).1 =
      CompressionResult.fileError (("x2.png").data) none (fnfMsg (("x2.png").data)) :=
  (C3_amended_errors envMissing (("x2.png").data) none).1 rfl

/-! ## C4: pre-dispatch rejection of non-PNG paths -/

/-- C4, counterexample. The claim says the rejection carries
`errorMessage = "not a PNG file"`; the code stores `"Not a PNG file"`
(capital N), a different string. -/
theorem C4_counterexample :
    batch_compress envAll none [("b.jpg").data] =
      [CompressionResult.batchReject ("b.jpg").data notPngMsg] ∧
    notPngMsg ≠ ("not a PNG file").data := by
  decide

/-- C4, amended. Every input whose lower-cased name does not end in `".png"`
is recorded during the dispatch loop as a failure dict with message
`"Not a PNG file"` (capital N, unlike the spec's literal), and no job for
that path is submitted to the pool — so the codec is never invoked on it. -/
theorem C4_amended_reject (env : Env) (out? : Option PyStr) (inputs : List PyStr) (p : PyStr)
    (hp : endsWithPngCI p = false) (hmem : p ∈ inputs) :
    CompressionResult.batchReject p notPngMsg ∈ batch_compress env out? inputs ∧
    ∀ j ∈ (dispatch out? inputs).2, j.1 ≠ p := by
  constructor
  · rw [batch_compress]
    apply List.mem_append_left
    rw [dispatch_rejects]
    exact List.mem_map_of_mem _ (List.mem_filter.mpr ⟨hmem, by simp [hp]⟩)
  · intro j hj hjp
    rw [dispatch_jobs] at hj
    rcases List.mem_map.mp hj with ⟨q, hq, rfl⟩
    have hq2 := (List.mem_filter.mp hq).2
    simp only at hjp
    rw [hjp, hp] at hq2
    exact Bool.noConfusion hq2

/-- C4, witness: the batch `["b.jpg"]` records the rejection and submits no
job. -/
theorem C4_witness :
    CompressionResult.batchReject (("b.jpg").data) notPngMsg ∈
      batch_compress envAll none [("b.jpg").data] ∧
    ∀ j ∈ (dispatch (none : Option PyStr) [("b.jpg").data]).2, j.1 ≠ ("b.jpg").data :=
  C4_amended_reject envAll none [("b.jpg").data] (("b.jpg").data) (by decide) (by decide)

/-! ## C6: savings arithmetic of a success result -/

/-- C6. Every success dict built by `compress_image` satisfies
`bytes_saved = original_size - new_size` and
`percentage_saved = bytes_saved / original_size * 100` when
`original_size > 0`, and `percentage_saved = 0` otherwise. -/
theorem C6_savings_arithmetic (env : Env) (input : PyStr) (out? : Option PyStr)
    (ip op : PyStr) (o n : Nat) (b : Int) (pct : ℚ)
    (h : (compress_image env input out?).1 = CompressionResult.ok ip op o n b pct) :
    b = (o : Int) - (n : Int) ∧
    pct = (if 0 < o then ((b : ℚ) / (o : ℚ)) * 100 else 0) := by
  by_cases h1 : env.exists_file input = false
  · rw [compress_image_notfound h1] at h
    exact absurd h (by simp)
  · have h1' := bool_true_of_not_false h1
    by_cases h2 : env.openOk input = false
    · rw [compress_image_openfail h1' h2] at h
      exact absurd h (by simp)
    · have h2' := bool_true_of_not_false h2
      by_cases h3 : env.fmtIsPng input = false ∧ env.convertOk input = false
      · rw [compress_image_convertfail h1' h2' h3.1 h3.2] at h
        exact absurd h (by simp)
      · by_cases h4 : env.mkdirOk (dirname (resolved_output input out?)) = false
        · rw [compress_image_mkdirfail h1' h2' h3 h4] at h
          exact absurd h (by simp)
        · have h4' := bool_true_of_not_false h4
          by_cases h5 : env.saveOk (resolved_output input out?) = false
          · rw [compress_image_savefail h1' h2' h3 h4' h5] at h
            exact absurd h (by simp)
          · have h5' := bool_true_of_not_false h5
            rw [compress_image_success h1' h2' h3 h4' h5'] at h
            have h' := h
            rw [CompressionResult.ok.injEq] at h'
            obtain ⟨hip, hop, ho, hn, hb, hpct⟩ := h'
            subst ho
            subst hn
            subst hb
            subst hpct
            exact ⟨rfl, rfl⟩

/-- C6, witness: the success result of `"a.png"` under `envAll`
(100 bytes down to 60) satisfies the arithmetic. -/
theorem C6_witness :
    (40 : Int) = ((100 : Nat) : Int) - ((60 : Nat) : Int) ∧
    (40 : ℚ) = (if 0 < (100 : Nat) then (((40 : Int) : ℚ) / ((100 : Nat) : ℚ)) * 100 else 0) :=
  C6_savings_arithmetic envAll aPng none aPng aCmp 100 60 40 40
    (by rw [compress_envAll_aPng]; rfl)

/-! ## C7: batch summary arithmetic -/

/-- Folding `acc + f r` over a list starting from `a` is `a` plus the sum. -/
theorem foldl_add_nat (f : CompressionResult → Nat) (l : List CompressionResult) (a : Nat) :
    l.foldl (fun acc r => acc + f r) a = a + (l.map f).sum := by
  induction l generalizing a with
  | nil => simp
  | cons r t ih => simp [ih, Nat.add_assoc]

/-- Rational version of `foldl_add_nat`, for the percentage sum. -/
theorem foldl_add_rat (f : CompressionResult → ℚ) (l : List CompressionResult) (a : ℚ) :
    l.foldl (fun acc r => acc + f r) a = a + (l.map f).sum := by
  induction l generalizing a with
  | nil => simp
  | cons r t ih => simp [ih, add_assoc]

/-- Casting a sum of naturals to the integers, elementwise. -/
theorem cast_sum_map (f : CompressionResult → Nat) (l : List CompressionResult) :
    (((l.map f).sum : Nat) : Int) = (l.map (fun r => (f r : Int))).sum := by
  induction l with
  | nil => simp
  | cons r t ih => simp [ih]

/-- C7. The summary printed by `cli_main` (and identically computed by the
GUI) satisfies: `total_saved` is the difference of the original and new
sizes summed over the successful results only; failed results do not affect
either statistic; the average is 0 when nothing succeeded; and otherwise the
average times the number of successes is the sum of their percentages
(i.e. it is their arithmetic mean). -/
theorem C7_summary_arithmetic (results : List CompressionResult) :
    cli_total_saved results =
      ((successful results).map (fun r => (getOriginal r : Int))).sum -
      ((successful results).map (fun r => (getNew r : Int))).sum ∧
    (∀ r, successOf r = false →
      cli_total_saved (r :: results) = cli_total_saved results ∧
      cli_avg (r :: results) = cli_avg results) ∧
    ((∀ r ∈ results, successOf r = false) → cli_avg results = 0) ∧
    ((successful results).length ≠ 0 →
      cli_avg results * ((successful results).length : ℚ) =
        ((successful results).map getPct).sum) := by
  refine ⟨?_, ?_, ?_, ?_⟩
  · rw [cli_total_saved, cli_total_original, cli_total_new, sumBy, sumBy,
      foldl_add_nat, foldl_add_nat]
    simp [cast_sum_map, Function.comp_def]
  · intro r hr
    have hsucc : successful (r :: results) = successful results := by
      simp [successful, List.filter, hr]
    constructor
    · rw [cli_total_saved, cli_total_saved, cli_total_original, cli_total_original,
        cli_total_new, cli_total_new, hsucc]
    · rw [cli_avg, cli_avg, hsucc]
  · intro hall
    have : successful results = [] := by
      rw [successful, List.filter_eq_nil_iff]
      intro a ha
      simp [hall a ha]
    simp [cli_avg, this]
  · intro hne
    rw [cli_avg, if_neg hne, foldl_add_rat]
    have hq : ((successful results).length : ℚ) ≠ 0 := by
      exact_mod_cast hne
    rw [zero_add, div_mul_cancel₀ _ hq]

/-- C7, witness on the one-element result list of a successful job. -/
theorem C7_witness :
    cli_total_saved [rA] =
      ((successful [rA]).map (fun r => (getOriginal r : Int))).sum -
      ((successful [rA]).map (fun r => (getNew r : Int))).sum ∧
    cli_avg [rA] * ((successful [rA]).length : ℚ) = ((successful [rA]).map getPct).sum :=
  ⟨(C7_summary_arithmetic [rA]).1, (C7_summary_arithmetic [rA]).2.2.2 (by decide)⟩


/-! ## C8: output path derivation -/

/-- C8. For a path `d/<n>.<e>` (directory `d` not ending in a slash, stem `n`
without slashes and not all dots, extension `e` without slashes or dots), the
default rule of `compress_image` derives `d/<n>_compressed.<e>` beside the
input, and the batch rule with an output directory `od` derives
`od/<n>_compressed.<e>`; concretely `photo.png` yields
`photo_compressed.png`. -/
theorem C8_output_path_rule (d od n e : PyStr)
    (hna : n.any (fun c => !(c == '.')) = true) (hns : '/' ∉ n)
    (hes : '/' ∉ e) (hed : '.' ∉ e)
    (hd : d ≠ []) (hdl : d.getLast? ≠ some '/')
    (hod : od ≠ []) (hodl : od.getLast? ≠ some '/') :
    default_output_path (d ++ '/' :: (n ++ '.' :: e)) =
      d ++ '/' :: (n ++ cSfx ++ '.' :: e) ∧
    batch_output_path od (d ++ '/' :: (n ++ '.' :: e)) =
      od ++ '/' :: (n ++ cSfx ++ '.' :: e) ∧
    default_output_path (("photo.png").data) = ("photo_compressed.png").data := by
  have htsf : '/' ∉ (n ++ '.' :: e) := by
    intro hx
    rcases List.mem_append.mp hx with hx | hx
    · exact hns hx
    · rcases List.mem_cons.mp hx with hx | hx
      · exact absurd hx.symm (by decide)
      · exact hes hx
  have hbn : basename (d ++ '/' :: (n ++ '.' :: e)) = n ++ '.' :: e :=
    basename_append_slashfree _ _ htsf
  have hdn : dirname (d ++ '/' :: (n ++ '.' :: e)) = d :=
    dirname_append _ _ htsf hd hdl
  have hse : splitext (n ++ '.' :: e) = (n, '.' :: e) :=
    splitext_split n e hns hes hed hna
  have hth : (n ++ cSfx ++ '.' :: e).head? ≠ some '/' := by
    apply head?_ne_slash_of_slashfree
    intro hx
    rcases List.mem_append.mp hx with hx | hx
    · rcases List.mem_append.mp hx with hx | hx
      · exact hns hx
      · revert hx
        decide
    · rcases List.mem_cons.mp hx with hx | hx
      · exact absurd hx.symm (by decide)
      · exact hes hx
  refine ⟨?_, ?_, by decide⟩
  · rw [default_output_path, hdn, hbn, hse]
    exact joinPath_of_ne d _ hth hd hdl
  · rw [batch_output_path, hbn, hse]
    exact joinPath_of_ne od _ hth hod hodl

/-- C8, witness at `dir/photo.png` with output directory `out`. -/
theorem C8_witness :
    default_output_path (("dir").data ++ '/' :: (("photo").data ++ '.' :: ("png").data)) =
      ("dir").data ++ '/' :: (("photo").data ++ cSfx ++ '.' :: ("png").data) ∧
    batch_output_path (("out").data)
        (("dir").data ++ '/' :: (("photo").data ++ '.' :: ("png").data)) =
      ("out").data ++ '/' :: (("photo").data ++ cSfx ++ '.' :: ("png").data) ∧
    default_output_path (("photo.png").data) = ("photo_compressed.png").data :=
  C8_output_path_rule (("dir").data) (("out").data) (("photo").data) (("png").data)
    (by decide) (by decide) (by decide) (by decide) (by decide) (by decide)
    (by decide) (by decide)

/-! ## C9: frame conditions of `compress_image` -/

theorem basename_no_slash (p : PyStr) : '/' ∉ basename p := by
  intro h
  rw [basename, pathSplit] at h
  simp only at h
  rw [List.mem_reverse] at h
  have hx := List.mem_takeWhile_imp h
  simp at hx

theorem default_output_path_eq (p : PyStr) :
    default_output_path p =
      joinPath (dirname p)
        ((splitext (basename p)).1 ++ cSfx ++ (splitext (basename p)).2) := rfl

theorem batch_output_path_eq (od p : PyStr) :
    batch_output_path od p =
      joinPath od ((splitext (basename p)).1 ++ cSfx ++ (splitext (basename p)).2) := rfl

/-- C9. When called the way the repository calls it (no explicit output
path, or the batch-derived `outputDir/<basename>_compressed<ext>` path),
`compress_image` writes at most one file — the compressed output at the
resolved output path — and never writes to the input path; in particular the
resolved output path always differs from the input path, because its
basename carries the extra `"_compressed"` infix. -/
theorem C9_frame (env : Env) (input : PyStr) (out? : Option PyStr)
    (hmode : out? = none ∨ ∃ od, out? = some (batch_output_path od input)) :
    resolved_output input out? ≠ input ∧
    (compress_image env input out?).2.2.length ≤ 1 ∧
    (∀ w ∈ (compress_image env input out?).2.2, w = resolved_output input out?) ∧
    input ∉ (compress_image env input out?).2.2 := by
  have hrc := splitext_recomp (basename input)
  have hsf : '/' ∉ ((splitext (basename input)).1 ++ cSfx ++ (splitext (basename input)).2) := by
    intro hx
    rcases List.mem_append.mp hx with hx | hx
    · rcases List.mem_append.mp hx with hx | hx
      · exact basename_no_slash input (hrc ▸ List.mem_append_left _ hx)
      · revert hx
        decide
    · exact basename_no_slash input (hrc ▸ List.mem_append_right _ hx)
  have hres : basename (resolved_output input out?) =
      (splitext (basename input)).1 ++ cSfx ++ (splitext (basename input)).2 := by
    rcases hmode with h | ⟨od, h⟩
    · subst h
      show basename (default_output_path input) = _
      rw [default_output_path_eq]
      exact basename_joinPath _ _ hsf
    · subst h
      show basename (batch_output_path od input) = _
      rw [batch_output_path_eq]
      exact basename_joinPath _ _ hsf
  have hneq : resolved_output input out? ≠ input := by
    intro heq
    rw [heq] at hres
    have h2 := hrc.trans hres
    have h3 := congrArg List.length h2
    have h4 : cSfx.length = 11 := by decide
    simp only [List.length_append, h4] at h3
    omega
  have hw : (compress_image env input out?).2.2 = [] ∨
      (compress_image env input out?).2.2 = [resolved_output input out?] := by
    by_cases h1 : env.exists_file input = false
    · rw [compress_image_notfound h1]
      exact Or.inl rfl
    · have h1' := bool_true_of_not_false h1
      by_cases h2 : env.openOk input = false
      · rw [compress_image_openfail h1' h2]
        exact Or.inl rfl
      · have h2' := bool_true_of_not_false h2
        by_cases h3 : env.fmtIsPng input = false ∧ env.convertOk input = false
        · rw [compress_image_convertfail h1' h2' h3.1 h3.2]
          exact Or.inl rfl
        · by_cases h4 : env.mkdirOk (dirname (resolved_output input out?)) = false
          · rw [compress_image_mkdirfail h1' h2' h3 h4]
            exact Or.inl rfl
          · have h4' := bool_true_of_not_false h4
            by_cases h5 : env.saveOk (resolved_output input out?) = false
            · rw [compress_image_savefail h1' h2' h3 h4' h5]
              exact Or.inl rfl
            · have h5' := bool_true_of_not_false h5
              rw [compress_image_success h1' h2' h3 h4' h5']
              exact Or.inr rfl
  refine ⟨hneq, ?_, ?_, ?_⟩
  · rcases hw with hw | hw <;> rw [hw] <;> simp
  · rcases hw with hw | hw <;> rw [hw] <;> simp
  · rcases hw with hw | hw <;> rw [hw]
    · simp
    · simp only [List.mem_singleton]
      intro hx
      exact hneq (hx ▸ rfl)

theorem C9_witness :
    resolved_output aPng none ≠ aPng ∧
    (compress_image envAll aPng none).2.2.length ≤ 1 ∧
    (∀ w ∈ (compress_image envAll aPng none).2.2, w = resolved_output aPng none) ∧
    aPng ∉ (compress_image envAll aPng none).2.2 :=
  C9_frame envAll aPng none (Or.inl rfl)


/-! ## C5: ordering of the batch event stream -/

/-- Every job trace contains its result's terminal event. -/
theorem terminal_mem_trace (env : Env) (p : PyStr) (o : Option PyStr) :
    terminalFor (compress_image env p o).1 ∈ (compress_image env p o).2.1 := by
  by_cases h1 : env.exists_file p = false
  · rw [compress_image_notfound h1]
    simp [terminalFor, successOf]
  · have h1' := bool_true_of_not_false h1
    by_cases h2 : env.openOk p = false
    · rw [compress_image_openfail h1' h2]
      simp [terminalFor, successOf]
    · have h2' := bool_true_of_not_false h2
      by_cases h3 : env.fmtIsPng p = false ∧ env.convertOk p = false
      · rw [compress_image_convertfail h1' h2' h3.1 h3.2]
        simp [terminalFor, successOf]
      · by_cases h4 : env.mkdirOk (dirname (resolved_output p o)) = false
        · rw [compress_image_mkdirfail h1' h2' h3 h4]
          simp [terminalFor, successOf]
        · have h4' := bool_true_of_not_false h4
          by_cases h5 : env.saveOk (resolved_output p o) = false
          · rw [compress_image_savefail h1' h2' h3 h4' h5]
            simp [terminalFor, successOf]
          · have h5' := bool_true_of_not_false h5
            rw [compress_image_success h1' h2' h3 h4' h5']
            simp [terminalFor, successOf]

theorem flatten_set_perm (srcs : List (List Event)) (i : Nat) (e : Event) (rest : List Event)
    (h : srcs.get? i = some (e :: rest)) :
    (e :: (srcs.set i rest).flatten).Perm srcs.flatten := by
  induction srcs generalizing i with
  | nil => simp at h
  | cons hd tl ih =>
    cases i with
    | zero =>
      rw [List.get?_cons_zero] at h
      injection h with h1
      subst h1
      simp only [List.set_cons_zero, List.flatten_cons]
      exact List.Perm.refl _
    | succ n =>
      rw [List.get?_cons_succ] at h
      have ihn := ih n h
      simp only [List.set_cons_succ, List.flatten_cons]
      exact (List.perm_middle).symm.trans (List.Perm.append_left hd ihn)

theorem interleave_perm (srcs : List (List Event)) (sched : List Nat) :
    (interleave srcs sched).Perm srcs.flatten := by
  induction sched generalizing srcs with
  | nil => exact List.Perm.refl _
  | cons i sched ih =>
    cases hget : srcs.get? i with
    | none =>
      have htf : takeFrom srcs i = (none, srcs) := by rw [takeFrom, hget]
      simp only [interleave, htf]
      exact ih srcs
    | some l =>
      cases l with
      | nil =>
        have htf : takeFrom srcs i = (none, srcs) := by rw [takeFrom, hget]
        simp only [interleave, htf]
        exact ih srcs
      | cons e0 rest =>
        have htf : takeFrom srcs i = (some e0, srcs.set i rest) := by rw [takeFrom, hget]
        simp only [interleave, htf]
        exact (List.Perm.cons e0 (ih _)).trans (flatten_set_perm srcs i e0 rest hget)

theorem forwardFrom_jobEvents (total k : Nat) (l : List Event) :
    ∀ x ∈ forwardFrom total k l, ∃ ev q, x = BatchEvent.jobEvent ev q := by
  induction l generalizing k with
  | nil => simp [forwardFrom]
  | cons e rest ih =>
    intro x hx
    rw [forwardFrom] at hx
    rcases List.mem_cons.mp hx with hx | hx
    · exact ⟨e, _, hx⟩
    · exact ih (k + 1) x hx

theorem mem_forwardFrom (total : Nat) (ev : Event) (k : Nat) (l : List Event)
    (h : ev ∈ l) : ∃ q, BatchEvent.jobEvent ev q ∈ forwardFrom total k l := by
  induction l generalizing k with
  | nil => simp at h
  | cons e rest ih =>
    rcases List.mem_cons.mp h with h | h
    · subst h
      exact ⟨_, List.mem_cons_self _ _⟩
    · rcases ih (k + 1) h with ⟨q, hq⟩
      exact ⟨q, List.mem_cons_of_mem _ hq⟩

theorem reject_event_mem_sources (env : Env) (out? : Option PyStr) (inputs : List PyStr)
    (r : CompressionResult) (hr : r ∈ (dispatch out? inputs).1) :
    [Event.error r] ∈ jobSources env out? inputs := by
  induction inputs with
  | nil => simp [dispatch] at hr
  | cons p rest ih =>
    rw [jobSources]
    by_cases hp : endsWithPngCI p = true
    · simp only [dispatch, hp, if_true] at hr
      exact List.mem_cons_of_mem _ (ih hr)
    · simp only [Bool.not_eq_true] at hp
      simp only [dispatch, hp, Bool.false_eq_true, if_false] at hr
      rcases List.mem_cons.mp hr with hr | hr
      · subst hr
        rw [hp]
        simp
      · exact List.mem_cons_of_mem _ (ih hr)

theorem job_trace_mem_sources (env : Env) (out? : Option PyStr) (inputs : List PyStr)
    (j : PyStr × Option PyStr) (hj : j ∈ (dispatch out? inputs).2) :
    (compress_image env j.1 j.2).2.1 ∈ jobSources env out? inputs := by
  induction inputs with
  | nil => simp [dispatch] at hj
  | cons p rest ih =>
    rw [jobSources]
    by_cases hp : endsWithPngCI p = true
    · simp only [dispatch, hp, if_true] at hj
      rcases List.mem_cons.mp hj with hj | hj
      · subst hj
        rw [hp]
        simp
      · exact List.mem_cons_of_mem _ (ih hj)
    · simp only [Bool.not_eq_true] at hp
      simp only [dispatch, hp, Bool.false_eq_true, if_false] at hj
      exact List.mem_cons_of_mem _ (ih hj)

theorem batch_terminal_in_sources (env : Env) (out? : Option PyStr) (inputs : List PyStr) :
    ∀ r ∈ batch_compress env out? inputs,
      terminalFor r ∈ (jobSources env out? inputs).flatten := by
  intro r hr
  rw [batch_compress] at hr
  rcases List.mem_append.mp hr with hr | hr
  · have hsrc := reject_event_mem_sources env out? inputs r hr
    have hterm : terminalFor r = Event.error r := by
      rw [dispatch_rejects] at hr
      rcases List.mem_map.mp hr with ⟨q, _, rfl⟩
      rfl
    rw [hterm]
    exact List.mem_flatten.mpr ⟨[Event.error r], hsrc, List.mem_singleton_self _⟩
  · rcases List.mem_map.mp hr with ⟨j, hj, rfl⟩
    have hsrc := job_trace_mem_sources env out? inputs j hj
    exact List.mem_flatten.mpr ⟨_, hsrc, terminal_mem_trace env j.1 j.2⟩

/-- C5. For every environment, input list and interleaving schedule, the
event stream of `batch_compress` is `batch_started` first, then only
per-job events (each carrying an `overall_progress` annotation), and
finally — after every job, scheduled or rejected, has contributed its
terminal event to the middle — a single `batch_completed` event carrying
the full ordered result sequence as its last event. -/
theorem C5_batch_event_order (env : Env) (out? : Option PyStr) (inputs : List PyStr)
    (sched : List Nat) :
    ∃ middle,
      batch_trace env out? inputs sched =
        BatchEvent.batch_started inputs.length ::
          (middle ++ [BatchEvent.batch_completed (batch_compress env out? inputs)]) ∧
      (∀ x ∈ middle, ∃ ev q, x = BatchEvent.jobEvent ev q) ∧
      (∀ r ∈ batch_compress env out? inputs, ∃ q,
        BatchEvent.jobEvent (terminalFor r) q ∈ middle) := by
  refine ⟨forwardFrom inputs.length 0 (interleave (jobSources env out? inputs) sched),
    rfl, forwardFrom_jobEvents _ _ _, ?_⟩
  intro r hr
  have h1 := batch_terminal_in_sources env out? inputs r hr
  have h2 : terminalFor r ∈ interleave (jobSources env out? inputs) sched :=
    ((interleave_perm _ sched).mem_iff).mpr h1
  exact mem_forwardFrom _ _ 0 _ h2

/-! ## C10: no `started` event for a missing input -/

/-- C10. When the input does not exist, the existence check raises before the
`started` callback: the emitted trace is the single `error` event. -/
theorem C10_no_started_event (env : Env) (input : PyStr) (out? : Option PyStr)
    (h : env.exists_file input = false) :
    (compress_image env input out?).2.1 =
      [Event.error (CompressionResult.fileError input out? (fnfMsg input))] := by
  rw [compress_image_notfound h]

/-- C10, witness at `"y.png"` in the all-missing environment. -/
theorem C10_witness :
    (compress_image envMissing (("y.png").data) none).2.1 =
      [Event.error (CompressionResult.fileError (("y.png").data) none
        (fnfMsg (("y.png").data)))] :=
  C10_no_started_event envMissing (("y.png").data) none rfl

end PngComp
